import Mathlib

/-!
Verification of the nbio package (non-blocking reader wrapper).

The Go source (read.go) wraps a blocking `io.ReadCloser` into a non-blocking
one.  A background producer goroutine repeatedly reads the source into one of
three fixed buffers, publishes filled slices on the capacity-1 channel `next`,
and takes replacement buffers from the capacity-2 channel `pool`; on the first
source error it stores the error in the capacity-1 channel `err` and closes
`next`.  The consumer-side `Read` drains a current buffer, waits on the earlier
of a timer or `next`, and opportunistically coalesces further buffers with a
non-blocking poll.

This file gives a shallow embedding.  Pure data is modelled directly; the
channel `next` is modelled, for one `Read` call, by the list `arrivals` of
values that successful receives would yield during that call, together with a
flag `closed` telling whether the channel has been closed (a receive on a
closed-and-drained channel yields `nil` immediately).  A call times out exactly
when it still needs data after `arrivals` is exhausted and the channel is not
closed; the non-blocking poll takes its `default` branch in the same situation.
The buffer recycling and goroutine teardown are modelled separately as a
labelled transition system over the three buffer tokens.
-/

/-- Error values: the `ErrNoData` sentinel of the package, or an arbitrary
error produced by the underlying source (indexed by a code). -/
inductive NBErr
  | noData
  | srcErr (code : Nat)
deriving DecidableEq

/-- The sentinel returned on timeout (`ErrNoData` in read.go). -/
def ErrNoData : NBErr := .noData

/-- Consumer-visible reader state: `buf` is `r.buf` (the current buffer,
`none` models the `nil` slice received from the closed `next` channel),
`i` is `r.i` (the read cursor), and `err` is the content of the sticky
error channel `r.err` (`none` when the slot is empty). -/
structure RState where
  buf : Option (List Nat)
  i : Nat
  err : Option NBErr
deriving DecidableEq

/-- Result of the wait loop of `reader.Read` (read.go lines 90-101):
whether the timer fired, the value of the local `buf` variable and of `r.i`
on exit, the arrivals not yet consumed, the number of channel receives
performed, and the old buffers recycled to the pool. -/
structure WaitRes where
  timedOut : Bool
  cur : Option (List Nat)
  i : Nat
  rem : List (List Nat)
  recvs : Nat
  recycled : List (List Nat)
deriving DecidableEq

/-- The wait loop `for buf != nil && r.i >= len(buf) { select ... }` of
`reader.Read`.  Each iteration either receives the next arrival (recycling the
old current buffer, resetting the cursor), receives `nil` if the channel is
closed and drained, or observes the timer fire when no arrival is pending. -/
def waitLoop (cur : Option (List Nat)) (i : Nat) (arrivals : List (List Nat))
    (closed : Bool) : WaitRes :=
  match cur with
  | none => ⟨false, none, i, arrivals, 0, []⟩
  | some b =>
    if i < b.length then ⟨false, some b, i, arrivals, 0, []⟩
    else
      match arrivals with
      | c :: rest =>
        let w := waitLoop (some c) 0 rest closed
        ⟨w.timedOut, w.cur, w.i, w.rem, w.recvs + 1, b :: w.recycled⟩
      | [] =>
        if closed then ⟨false, none, 0, [], 1, [b]⟩
        else ⟨true, some b, i, [], 0, []⟩

/-- Result of the copy loop of `reader.Read` (read.go lines 114-141). -/
structure CopyRes where
  n : Nat
  out : List Nat
  cur : Option (List Nat)
  i : Nat
  rem : List (List Nat)
  recycled : List (List Nat)
deriving DecidableEq

/-- The copy loop of `reader.Read`: `did := copy(p, buf[r.i:])` with the
cursor and cumulative count updated, the early return `if n >= len(p)`
(note: `n` is the cumulative count while `p` is the remaining destination,
which shrinks by `p = p[did:]` each iteration), and the non-blocking
`select` with a `default` branch.  `prem` is `len(p)` for the current `p`;
`out` accumulates the bytes written to the destination. -/
def copyLoop (b : List Nat) (i prem n : Nat) (out : List Nat)
    (arrivals : List (List Nat)) (closed : Bool) : CopyRes :=
  let did := min prem (b.length - i)
  let i2 := i + did
  let n2 := n + did
  let out2 := out ++ (b.drop i).take did
  if prem ≤ n2 then ⟨n2, out2, some b, i2, arrivals, []⟩
  else
    match arrivals with
    | c :: rest =>
      let r := copyLoop c 0 (prem - did) n2 out2 rest closed
      ⟨r.n, r.out, r.cur, r.i, r.rem, b :: r.recycled⟩
    | [] =>
      if closed then ⟨n2, out2, none, 0, [], [b]⟩
      else ⟨n2, out2, some b, i2, [], []⟩

/-- Result of one `reader.Read` call: the returned count `n`, the bytes
written to the destination, the returned error (`none` for a `nil` error),
the reader state after the call, the arrivals not consumed, the number of
receives done by the wait loop, whether the timer-fired branch returned, and
the buffers recycled to the pool during the call. -/
structure ReadRes where
  n : Nat
  out : List Nat
  e : Option NBErr
  st : RState
  rem : List (List Nat)
  waitRecvs : Nat
  timedOut : Bool
  recycled : List (List Nat)
deriving DecidableEq

/-- One call of `reader.Read` (read.go lines 82-142) on a destination of
length `plen`.  Returns `none` only in the unreachable situation where the
code would block forever on `<-r.err` (current buffer `nil` but empty error
slot); otherwise `some` of the call's outcome.  The timer is abstracted: the
timeout branch is taken exactly when the wait loop exhausts `arrivals` with
the channel not closed. -/
def Read (st : RState) (plen : Nat) (arrivals : List (List Nat))
    (closed : Bool) : Option ReadRes :=
  let w := waitLoop st.buf st.i arrivals closed
  if w.timedOut then
    some ⟨0, [], some ErrNoData, ⟨w.cur, w.i, st.err⟩, w.rem, w.recvs, true, w.recycled⟩
  else
    match w.cur with
    | none =>
      match st.err with
      | none => none
      | some e =>
        some ⟨0, [], some e, ⟨none, w.i, some e⟩, w.rem, w.recvs, false, w.recycled⟩
    | some b =>
      let r := copyLoop b w.i plen 0 [] w.rem closed
      some ⟨r.n, r.out, none, ⟨r.cur, r.i, st.err⟩, r.rem, w.recvs, false,
            w.recycled ++ r.recycled⟩

/-- The producer goroutine of `NewReader` (read.go lines 50-66), driven by the
successive results of `r.r.Read`: each source call yields a chunk of bytes
(empty when `n == 0`) and possibly an error.  If `n != 0` the chunk is
published on `next`; if the same call also returned an error, the error is
recorded right after and the loop stops.  Returns the chunks published in
order and the terminal error, `none` when the given source results are
exhausted without an error (the goroutine is still running). -/
def producerRun : List (List Nat × Option NBErr) → List (List Nat) × Option NBErr
  | [] => ([], none)
  | (c, e) :: rest =>
    let pubs : List (List Nat) := if c.isEmpty then [] else [c]
    match e with
    | some er => (pubs, some er)
    | none =>
      let pr := producerRun rest
      (pubs ++ pr.1, pr.2)

/-- Repeated `Read` calls against a closed `next` channel holding `arrivals`:
collects the bytes delivered by successive calls until a call returns an
error, which is returned together with all bytes delivered before it.
`fuel` bounds the number of calls; `none` on fuel exhaustion. -/
def drive : Nat → RState → Nat → List (List Nat) → Option (List Nat × NBErr)
  | 0, _, _, _ => none
  | fuel + 1, st, plen, arrivals =>
    match Read st plen arrivals true with
    | none => none
    | some r =>
      match r.e with
      | some e => some ([], e)
      | none =>
        match drive fuel r.st plen r.rem with
        | none => none
        | some pr => some (r.out ++ pr.1, pr.2)

/-- Control point of the producer goroutine of `NewReader`: blocked in
`r.r.Read` (`reading`), about to send on `r.next` (`pubData e`, where `e`
records whether the same source call also returned an error), blocked on
`<-r.pool` (`takePool e`), about to send the error on `r.err` (`pubErr`),
about to `close(r.next)` (`closeNext`), or returned (`done`). -/
inductive PPhase
  | reading
  | pubData (e : Bool)
  | takePool (e : Bool)
  | pubErr
  | closeNext
  | done
deriving DecidableEq

/-- Is the producer waiting on the recycle pool? -/
def PPhase.isTake : PPhase → Bool
  | .takePool _ => true
  | _ => false

/-- Consumer-side mode: issuing `Read` calls (`normal`), inside `Close`'s
drain loop after the source was closed (`closing`), or `Close` returned
(`closedDone`). -/
inductive CMode
  | normal
  | closing
  | closedDone
deriving DecidableEq

/-- Whole-system state for the three-buffer circulation.  The three fixed
arrays `buf1 buf2 buf3` of the `reader` struct are the tokens `0, 1, 2` of
`Fin 3`.  `next` is the capacity-1 filled-buffer channel, `pool` the
capacity-2 recycle channel (front = next to be received), `cur` is `r.buf`
(`none` once the `nil` of the closed channel was adopted), `prodBuf` the
buffer owned by the producer goroutine, `errSlot` whether `r.err` holds the
error, `src` the pending results of the underlying source (`(d, e)` = the
call returns data iff `d` and an error iff `e`), `sourceClosed` whether
`r.r.Close()` has happened (after which a source read returns an error). -/
structure Sys where
  phase : PPhase
  prodBuf : Option (Fin 3)
  next : Option (Fin 3)
  nextClosed : Bool
  pool : List (Fin 3)
  cur : Option (Fin 3)
  errSlot : Bool
  src : List (Bool × Bool)
  sourceClosed : Bool
  mode : CMode
deriving DecidableEq

/-- Number of occurrences of token `b` in an optional slot. -/
def ocnt (o : Option (Fin 3)) (b : Fin 3) : Nat :=
  match o with
  | none => 0
  | some x => if x = b then 1 else 0

/-- Number of occurrences of token `b` in a list of tokens. -/
def lcnt (l : List (Fin 3)) (b : Fin 3) : Nat :=
  match l with
  | [] => 0
  | x :: xs => (if x = b then 1 else 0) + lcnt xs b

/-- Total number of places where buffer `b` currently lives: in transit on
`next`, idle in the pool, current at the consumer, or owned by the
producer. -/
def occ (s : Sys) (b : Fin 3) : Nat :=
  ocnt s.next b + lcnt s.pool b + ocnt s.cur b + ocnt s.prodBuf b

/-- Interleaving semantics of the reader: producer steps (from the goroutine
body in `NewReader`), consumer receive steps (from `reader.Read`), and the
close steps (from `reader.Close`).  Channel sends require capacity
(`next = none` for the capacity-1 channel, `pool.length < 2` for the
capacity-2 channel) and receives require availability, matching Go's
blocking channel operations; a receive on the closed, drained `next` yields
`nil` immediately (`consRecvClosed`). -/
inductive Step : Sys → Sys → Prop
  | readRes (s : Sys) (d e : Bool) (rest : List (Bool × Bool)) :
      s.phase = .reading → s.src = (d, e) :: rest →
      Step s { s with src := rest,
                      phase := if d then .pubData e
                               else if e then .pubErr else .reading }
  | readClosed (s : Sys) :
      s.phase = .reading → s.src = [] → s.sourceClosed = true →
      Step s { s with phase := .pubErr }
  | pubNext (s : Sys) (b : Fin 3) (e : Bool) :
      s.phase = .pubData e → s.prodBuf = some b → s.next = none →
      s.nextClosed = false →
      Step s { s with next := some b, prodBuf := none, phase := .takePool e }
  | takeFromPool (s : Sys) (b : Fin 3) (rest : List (Fin 3)) (e : Bool) :
      s.phase = .takePool e → s.pool = b :: rest →
      Step s { s with prodBuf := some b, pool := rest,
                      phase := if e then .pubErr else .reading }
  | putErr (s : Sys) :
      s.phase = .pubErr → s.errSlot = false →
      Step s { s with errSlot := true, phase := .closeNext }
  | closeNextChan (s : Sys) :
      s.phase = .closeNext →
      Step s { s with nextClosed := true, phase := .done }
  | consRecv (s : Sys) (b c0 : Fin 3) :
      s.mode = .normal → s.next = some b → s.cur = some c0 →
      s.pool.length < 2 →
      Step s { s with next := none, pool := s.pool ++ [c0], cur := some b }
  | consRecvClosed (s : Sys) (c0 : Fin 3) :
      s.mode = .normal → s.next = none → s.nextClosed = true →
      s.cur = some c0 → s.pool.length < 2 →
      Step s { s with pool := s.pool ++ [c0], cur := none }
  | closeSrc (s : Sys) :
      s.mode = .normal →
      Step s { s with mode := .closing, sourceClosed := true }
  | drainRecv (s : Sys) (b : Fin 3) :
      s.mode = .closing → s.next = some b → s.pool.length < 2 →
      Step s { s with next := none, pool := s.pool ++ [b] }
  | drainDone (s : Sys) :
      s.mode = .closing → s.next = none → s.nextClosed = true →
      Step s { s with mode := .closedDone }

/-- The state built by `NewReader`: `r.buf = r.buf1[:0]` is current (token
0), the goroutine owns `r.buf2` (token 1), `r.pool <- r.buf3[:]` seeds the
pool (token 2); all channels empty otherwise. -/
def initSys (src : List (Bool × Bool)) : Sys :=
  { phase := .reading, prodBuf := some 1, next := none, nextClosed := false,
    pool := [2], cur := some 0, errSlot := false, src := src,
    sourceClosed := false, mode := .normal }

/-- Reachability from the freshly constructed reader. -/
def SysReach (src : List (Bool × Bool)) (s : Sys) : Prop :=
  Relation.ReflTransGen Step (initSys src) s

/-- Inductive invariant of the reader: every buffer token lives in exactly
one place; the producer holds no buffer exactly while waiting on the pool;
`next` is closed exactly once the producer has returned; the error slot is
filled exactly from the moment the error was pushed; the consumer's buffer
can only be `nil` after `next` was closed; the source is closed exactly from
the start of `Close`; and `Close` can only have returned after observing the
closed channel. -/
def SysInv (s : Sys) : Prop :=
  (∀ b : Fin 3, occ s b = 1) ∧
  (s.prodBuf = none ↔ s.phase.isTake = true) ∧
  (s.nextClosed = true ↔ s.phase = .done) ∧
  (s.errSlot = true ↔ (s.phase = .closeNext ∨ s.phase = .done)) ∧
  (s.cur = none → s.nextClosed = true) ∧
  (s.sourceClosed = true ↔ (s.mode = .closing ∨ s.mode = .closedDone)) ∧
  (s.mode = .closedDone → s.nextClosed = true)

/-- Remaining producer steps implied by a list of pending source results:
one step to consume the result, two more to publish and take a replacement
when it carries data, and two more to push the error and close `next` when
it carries an error (after which nothing of the list is read). -/
def listCost : List (Bool × Bool) → Nat
  | [] => 0
  | (d, e) :: rest =>
    1 + (if d then 2 else 0) + (if e then 2 else listCost rest)

/-- Does some pending source result carry an error? -/
def listHasErr : List (Bool × Bool) → Bool
  | [] => false
  | (_, e) :: rest => e || listHasErr rest

/-- Producer steps left when at `reading`: the cost of the pending results,
plus the error path taken after the closed source starts failing reads
(one failing read, one error push, one channel close) when the results
themselves never error. -/
def readingCost (src : List (Bool × Bool)) (sc : Bool) : Nat :=
  listCost src + (if listHasErr src then 0 else if sc then 3 else 0)

/-- Producer steps left from an arbitrary phase. -/
def prodCost (s : Sys) : Nat :=
  match s.phase with
  | .reading => readingCost s.src s.sourceClosed
  | .pubData e => 2 + (if e then 2 else readingCost s.src s.sourceClosed)
  | .takePool e => 1 + (if e then 2 else readingCost s.src s.sourceClosed)
  | .pubErr => 2
  | .closeNext => 1
  | .done => 0

/-- Number of buffers the pending source results will still publish. -/
def listPubs : List (Bool × Bool) → Nat
  | [] => 0
  | (d, e) :: rest => (if d then 1 else 0) + (if e then 0 else listPubs rest)

/-- Number of buffers the producer will still publish from its phase on. -/
def prodPubs (s : Sys) : Nat :=
  match s.phase with
  | .reading => listPubs s.src
  | .pubData e => 1 + (if e then 0 else listPubs s.src)
  | .takePool e => if e then 0 else listPubs s.src
  | _ => 0

/-- One if the optional slot is occupied. -/
def onum (o : Option (Fin 3)) : Nat :=
  match o with
  | none => 0
  | some _ => 1

/-- Termination measure for the system once `Close` has begun: remaining
producer steps, plus (while the drain loop runs) the drain steps still due —
one per buffer in transit or yet to be published, and one to observe the
closed channel. -/
def sysMeasure (s : Sys) : Nat :=
  prodCost s + (match s.mode with
                | .closing => onum s.next + prodPubs s + 1
                | _ => 0)

/-- Helper: token counts distribute over list append. -/
theorem lcnt_append (l1 l2 : List (Fin 3)) (b : Fin 3) :
    lcnt (l1 ++ l2) b = lcnt l1 b + lcnt l2 b := by
  induction l1 with
  | nil => simp [lcnt]
  | cons x xs ih =>
    simp only [List.cons_append, lcnt, List.append_eq, ih]
    omega

/-- Helper: the freshly constructed reader satisfies the invariant. -/
theorem sysInv_init (src : List (Bool × Bool)) : SysInv (initSys src) := by
  simp only [SysInv]
  refine ⟨fun b => ?_, ?_, ?_, ?_, ?_, ?_, ?_⟩
  · fin_cases b <;> rfl
  all_goals simp [initSys, PPhase.isTake]

/-- Helper: every step of the system preserves the invariant. -/
theorem sysInv_step (s t : Sys) (hinv : SysInv s) (hstep : Step s t) :
    SysInv t := by
  simp only [SysInv] at hinv ⊢
  obtain ⟨hocc, hpb, hnc, hes, hcn, hsc, hmd⟩ := hinv
  cases hstep with
  | readRes d e rest hph hsrc =>
    refine ⟨fun x => by simpa [occ] using hocc x, ?_, ?_, ?_, by simpa using hcn,
      by simpa using hsc, by simpa using hmd⟩ <;>
      cases d <;> cases e <;> simp_all [PPhase.isTake]
  | readClosed hph hsrc hscl =>
    refine ⟨fun x => by simpa [occ] using hocc x, ?_, ?_, ?_, by simpa using hcn,
      by simpa using hsc, by simpa using hmd⟩ <;> simp_all [PPhase.isTake]
  | pubNext b e hph hpbuf hnext hncl =>
    refine ⟨fun x => ?_, ?_, ?_, ?_, ?_, by simpa using hsc, by simpa using hmd⟩
    · have h := hocc x
      simp only [occ] at h ⊢
      rw [hpbuf, hnext] at h
      simp only [ocnt] at h ⊢
      split_ifs at h ⊢ <;> omega
    · simp [PPhase.isTake]
    · simp_all [PPhase.isTake]
    · simp_all [PPhase.isTake]
    · intro hcur
      simp at hcur
      exact absurd (hncl ▸ hcn hcur) (by simp)
  | takeFromPool b rest e hph hpool =>
    have hpn : s.prodBuf = none := hpb.mpr (by rw [hph]; rfl)
    refine ⟨fun x => ?_, ?_, ?_, ?_, ?_, by simpa using hsc, by simpa using hmd⟩
    · have h := hocc x
      simp only [occ] at h ⊢
      rw [hpool, hpn] at h
      simp only [ocnt, lcnt] at h ⊢
      split_ifs at h ⊢ <;> omega
    · cases e <;> simp [PPhase.isTake]
    · cases e <;> simp_all [PPhase.isTake]
    · cases e <;> simp_all [PPhase.isTake]
    · intro hcur
      simp at hcur
      rw [hph] at hnc
      simp at hnc
      exact absurd (hcn hcur) (by simp [hnc])
  | putErr hph hes0 =>
    refine ⟨fun x => by simpa [occ] using hocc x, ?_, ?_, ?_, ?_,
      by simpa using hsc, by simpa using hmd⟩
    · simp_all [PPhase.isTake]
    · simp_all [PPhase.isTake]
    · simp_all [PPhase.isTake]
    · intro hcur
      simp at hcur
      rw [hph] at hnc
      simp at hnc
      exact absurd (hcn hcur) (by simp [hnc])
  | closeNextChan hph =>
    refine ⟨fun x => by simpa [occ] using hocc x, ?_, ?_, ?_, ?_,
      by simpa using hsc, by simp⟩
    · simp_all [PPhase.isTake]
    · simp
    · simp_all [PPhase.isTake]
    · simp
  | consRecv b c0 hmode hnext hcur hpl =>
    refine ⟨fun x => ?_, by simpa [PPhase.isTake] using hpb,
      by simpa using hnc, by simpa using hes, by simp,
      by simpa using hsc, by simp_all⟩
    have h := hocc x
    simp only [occ] at h ⊢
    rw [hnext, hcur] at h
    simp only [ocnt, lcnt, lcnt_append] at h ⊢
    split_ifs at h ⊢ <;> omega
  | consRecvClosed c0 hmode hnext hncl hcur hpl =>
    refine ⟨fun x => ?_, by simpa [PPhase.isTake] using hpb,
      by simpa using hnc, by simpa using hes, by simp [hncl],
      by simpa using hsc, by simp_all⟩
    have h := hocc x
    simp only [occ] at h ⊢
    rw [hcur] at h
    simp only [ocnt, lcnt, lcnt_append] at h ⊢
    split_ifs at h ⊢ <;> omega
  | closeSrc hmode =>
    refine ⟨fun x => by simpa [occ] using hocc x,
      by simpa [PPhase.isTake] using hpb, by simpa using hnc,
      by simpa using hes, by simpa using hcn, by simp, by simp⟩
  | drainRecv b hmode hnext hpl =>
    refine ⟨fun x => ?_, by simpa [PPhase.isTake] using hpb,
      by simpa using hnc, by simpa using hes, by simpa using hcn,
      by simpa using hsc, by simp_all⟩
    have h := hocc x
    simp only [occ] at h ⊢
    rw [hnext] at h
    simp only [ocnt, lcnt, lcnt_append] at h ⊢
    split_ifs at h ⊢ <;> omega
  | drainDone hmode hnext hncl =>
    refine ⟨fun x => by simpa [occ] using hocc x,
      by simpa [PPhase.isTake] using hpb, by simpa using hnc,
      by simpa using hes, by simpa using hcn, ?_, by simp [hncl]⟩
    simp [hsc.mpr (Or.inl hmode)]

/-- Helper: the invariant holds in every reachable state. -/
theorem sysInv_of_reach (src : List (Bool × Bool)) (s : Sys)
    (h : SysReach src s) : SysInv s := by
  induction h with
  | refl => exact sysInv_init src
  | tail _ hstep ih => exact sysInv_step _ _ ih hstep

/-- Helper: the three token counts of a list sum to its length. -/
theorem lcnt_total (l : List (Fin 3)) :
    lcnt l 0 + lcnt l 1 + lcnt l 2 = l.length := by
  induction l with
  | nil => rfl
  | cons x xs ih =>
    simp only [lcnt, List.length_cons]
    fin_cases x <;> simp <;> omega

/-- Helper: the three token counts of an optional slot sum to its occupancy. -/
theorem ocnt_total (o : Option (Fin 3)) :
    ocnt o 0 + ocnt o 1 + ocnt o 2 = onum o := by
  rcases o with _ | x
  · rfl
  · fin_cases x <;> decide

/-- Helper: `prodCost` only reads the producer-side fields. -/
theorem prodCost_eq (s t : Sys) (h1 : t.phase = s.phase) (h2 : t.src = s.src)
    (h3 : t.sourceClosed = s.sourceClosed) : prodCost t = prodCost s := by
  unfold prodCost
  rw [h1, h2, h3]

/-- Helper: `prodPubs` only reads the producer-side fields. -/
theorem prodPubs_eq (s t : Sys) (h1 : t.phase = s.phase) (h2 : t.src = s.src) :
    prodPubs t = prodPubs s := by
  unfold prodPubs
  rw [h1, h2]

/-- Helper: the measure during the drain loop. -/
theorem sysMeasure_closing (s : Sys) (hm : s.mode = .closing) :
    sysMeasure s = prodCost s + (onum s.next + prodPubs s + 1) := by
  unfold sysMeasure
  rw [hm]

/-- Helper: the measure after `Close` has returned. -/
theorem sysMeasure_closedDone (s : Sys) (hm : s.mode = .closedDone) :
    sysMeasure s = prodCost s := by
  unfold sysMeasure
  rw [hm]
  rfl

instance (s : Sys) : Decidable (SysInv s) := by
  unfold SysInv
  infer_instance

/-- Helper: once `Close` has run (source closed, drain loop in progress), a
non-final system always has an enabled step — in particular a producer
blocked sending on `next` or receiving from `pool` is released, because the
invariant guarantees the drain can receive and the pool cannot be empty at
`takePool`. -/
theorem sys_progress (s : Sys) (hinv : SysInv s) (hsc : s.sourceClosed = true)
    (hm : s.mode = .closing) : ∃ t, Step s t := by
  simp only [SysInv] at hinv
  obtain ⟨hocc, hpb, hnc, hes, hcn, hscm, hmd⟩ := hinv
  have hptot := lcnt_total s.pool
  have hc0 := ocnt_total s.cur
  have hp0 := ocnt_total s.prodBuf
  have hn0 := ocnt_total s.next
  have h0 := hocc 0
  have h1 := hocc 1
  have h2 := hocc 2
  simp only [occ] at h0 h1 h2
  have hsum : onum s.next + s.pool.length + onum s.cur + onum s.prodBuf = 3 := by
    omega
  rcases hnext : s.next with _ | b
  · rcases hncl : s.nextClosed with _ | _
    · cases hph : s.phase with
      | reading =>
        rcases hsrc : s.src with _ | ⟨⟨d, e⟩, rest⟩
        · exact ⟨_, Step.readClosed s hph hsrc hsc⟩
        · exact ⟨_, Step.readRes s d e rest hph hsrc⟩
      | pubData e =>
        rcases hb : s.prodBuf with _ | b
        · exact absurd (hpb.mp hb) (by simp [hph, PPhase.isTake])
        · exact ⟨_, Step.pubNext s b e hph hb hnext hncl⟩
      | takePool e =>
        have hpn : s.prodBuf = none := hpb.mpr (by simp [hph, PPhase.isTake])
        rcases hpool : s.pool with _ | ⟨b, rest⟩
        · exfalso
          rcases hcy : s.cur with _ | y
          · rw [hcn hcy] at hncl
            cases hncl
          · rw [hnext, hpool, hpn, hcy] at h0 h1 h2
            simp only [ocnt, lcnt] at h0 h1 h2
            fin_cases y <;> simp_all
        · exact ⟨_, Step.takeFromPool s b rest e hph hpool⟩
      | pubErr =>
        have he0 : s.errSlot = false := by
          rw [hph] at hes
          simpa using hes
        exact ⟨_, Step.putErr s hph he0⟩
      | closeNext => exact ⟨_, Step.closeNextChan s hph⟩
      | done =>
        rw [hnc.mpr hph] at hncl
        cases hncl
    · exact ⟨_, Step.drainDone s hm hnext hncl⟩
  · have hone : 1 ≤ onum s.cur + onum s.prodBuf := by
      rcases hcy : s.cur with _ | y
      · have hd : s.phase = .done := hnc.mp (hcn hcy)
        rcases hb : s.prodBuf with _ | b2
        · exact absurd (hpb.mp hb) (by simp [hd, PPhase.isTake])
        · simp [onum]
      · simp [onum]
    have hpl : s.pool.length < 2 := by
      rw [hnext] at hsum
      simp only [onum] at hsum hone
      omega
    exact ⟨_, Step.drainRecv s b hm hnext hpl⟩

/-- Helper: once the source has been closed, every enabled step strictly
decreases the termination measure, so the system cannot run forever — the
producer reaches `done` and the drain loop finishes. -/
theorem sysMeasure_step (s t : Sys) (hinv : SysInv s) (hsc : s.sourceClosed = true)
    (hstep : Step s t) : sysMeasure t < sysMeasure s := by
  simp only [SysInv] at hinv
  obtain ⟨hocc, hpb, hnc, hes, hcn, hscm, hmd⟩ := hinv
  have hmode : s.mode = .closing ∨ s.mode = .closedDone := hscm.mp hsc
  cases hstep with
  | readRes d e rest hph hsrc =>
    rcases hmode with hm | hm <;>
      cases d <;> cases e <;>
        simp [sysMeasure, prodCost, readingCost, prodPubs, listCost, listPubs,
          listHasErr, hph, hsrc, hm, hsc, onum] <;>
        split_ifs <;> omega
  | readClosed hph hsrc hscl =>
    rcases hmode with hm | hm <;>
      simp [sysMeasure, prodCost, readingCost, prodPubs, listCost, listPubs,
        listHasErr, hph, hsrc, hm, hsc, onum]
  | pubNext b e hph hpbuf hnext hncl =>
    rcases hmode with hm | hm <;>
      cases e <;>
        simp [sysMeasure, prodCost, prodPubs, hph, hm, hnext, onum]
  | takeFromPool b rest e hph hpool =>
    rcases hmode with hm | hm <;>
      cases e <;>
        simp [sysMeasure, prodCost, prodPubs, hph, hm, onum]
  | putErr hph hes0 =>
    rcases hmode with hm | hm <;>
      simp [sysMeasure, prodCost, prodPubs, hph, hm, onum]
  | closeNextChan hph =>
    rcases hmode with hm | hm <;>
      simp [sysMeasure, prodCost, prodPubs, hph, hm, onum]
  | consRecv b c0 hmn hnext hcur hpl =>
    rcases hmode with hm | hm <;> rw [hmn] at hm <;> cases hm
  | consRecvClosed c0 hmn hnext hncl hcur hpl =>
    rcases hmode with hm | hm <;> rw [hmn] at hm <;> cases hm
  | closeSrc hmn =>
    rcases hmode with hm | hm <;> rw [hmn] at hm <;> cases hm
  | drainRecv b hmn hnext hpl =>
    rw [sysMeasure_closing { s with next := none, pool := s.pool ++ [b] }
        (by simpa using hmn),
      sysMeasure_closing s hmn,
      prodCost_eq s { s with next := none, pool := s.pool ++ [b] } rfl rfl rfl,
      prodPubs_eq s { s with next := none, pool := s.pool ++ [b] } rfl rfl,
      hnext]
    simp only [onum]
    omega
  | drainDone hmn hnext hncl =>
    rw [sysMeasure_closedDone { s with mode := CMode.closedDone } rfl,
      sysMeasure_closing s hmn,
      prodCost_eq s { s with mode := CMode.closedDone } rfl rfl rfl]
    omega

/-- Claim C8: three buffer tokens exist for the whole lifetime of the reader
(the three fixed arrays of the struct, allocated at construction — the state
space carries exactly the tokens `0, 1, 2` and no step creates or destroys
one), and in every reachable state each token occupies exactly one of the
four places: owned by the producer (being filled), in transit on the
filled-buffer channel, current at the consumer, or idle in the recycle pool
— bounding memory to three buffer-capacities. -/
theorem c8_buffer_partition (src : List (Bool × Bool)) (s : Sys)
    (h : SysReach src s) : ∀ b : Fin 3, occ s b = 1 :=
  (sysInv_of_reach src s h).1

/-- Witness for C8 at the initial state. -/
theorem c8_witness : occ (initSys []) 0 = 1 :=
  c8_buffer_partition [] (initSys []) Relation.ReflTransGen.refl 0

/-- Claim C6: `Close` terminates the background task.  (i) every reachable
state satisfies the invariant; (ii) whenever `Close` has returned
(`closedDone`), the producer goroutine has terminated (`done`); (iii) while
the drain loop runs, a step is always enabled — the drain releases a
producer blocked on publishing or on the recycle pool — and (iv) after the
source is closed every step strictly decreases the measure, so the drain
and the producer finish in finitely many steps; together, maximal runs end
with `Close` returned and no background activity pending. -/
theorem c6_close_terminates :
    (∀ (src : List (Bool × Bool)) (s : Sys), SysReach src s → SysInv s) ∧
    (∀ s : Sys, SysInv s → s.mode = .closedDone → s.phase = .done) ∧
    (∀ s : Sys, SysInv s → s.sourceClosed = true → s.mode = .closing →
      ∃ t, Step s t) ∧
    (∀ s t : Sys, SysInv s → s.sourceClosed = true → Step s t →
      sysMeasure t < sysMeasure s) := by
  refine ⟨sysInv_of_reach, ?_, sys_progress, sysMeasure_step⟩
  intro s hinv hm
  simp only [SysInv] at hinv
  exact hinv.2.2.1.mp (hinv.2.2.2.2.2.2 hm)

/-- Witness for C6: a concrete closed-down state is recognised as terminated,
and from a concrete mid-close state the enabled step decreases the measure. -/
theorem c6_witness :
    Sys.phase ⟨.done, some 1, none, true, [0, 2], none, true, [], true,
      .closedDone⟩ = .done ∧
    sysMeasure ⟨.pubErr, some 1, none, false, [2], some 0, false, [], true,
      .closing⟩ <
      sysMeasure ⟨.reading, some 1, none, false, [2], some 0, false, [], true,
        .closing⟩ :=
  ⟨c6_close_terminates.2.1 _ (by decide) rfl,
   c6_close_terminates.2.2.2 _ _ (by decide) rfl
     (Step.readClosed _ rfl rfl rfl)⟩

/-- Events performed by `reader.Close` (read.go lines 71-80), in order. -/
inductive CloseEv
  | srcClose
  | recycle (c : List Nat)
  | sawClosed
deriving DecidableEq

/-- The drain loop `for buf := range r.next { r.pool <- buf }` of
`reader.Close`: recycles every buffer still in flight, then observes the
closed channel. -/
def closeDrain : List (List Nat) → List CloseEv
  | [] => [.sawClosed]
  | c :: rest => .recycle c :: closeDrain rest

/-- One call of `reader.Close`: first `r.r.Close()` (whose error value is
`closeErr`), then the drain loop over the buffers still pending on `next`;
the return value is the captured source close error. -/
def closeFn (closeErr : Option NBErr) (pending : List (List Nat)) :
    Option NBErr × List CloseEv :=
  (closeErr, .srcClose :: closeDrain pending)

/-- Helper: taking `min k (length c)` elements is the same as taking `k`. -/
theorem list_take_min (c : List Nat) (k : Nat) : c.take (min k c.length) = c.take k := by
  rcases Nat.le_total k c.length with h | h
  · rw [Nat.min_eq_left h]
  · rw [Nat.min_eq_right h, List.take_of_length_le h,
      List.take_of_length_le (Nat.le_refl _)]

/-- Claim C1: a `Read` call made while the current buffer is exhausted, with no
filled buffer arriving before the timer fires, returns `(0, ErrNoData)` and
leaves the reader state (current buffer, cursor, error slot) unchanged; a
subsequent call on the same state with a filled buffer arriving succeeds with
a positive count and a `nil` error. -/
theorem c1_timeout_state_unchanged (b : List Nat) (i plen : Nat) (er : Option NBErr)
    (hex : b.length ≤ i) :
    Read ⟨some b, i, er⟩ plen [] false =
      some ⟨0, [], some ErrNoData, ⟨some b, i, er⟩, [], 0, true, []⟩ ∧
    ∀ c : List Nat, c ≠ [] → 0 < plen →
      Read ⟨some b, i, er⟩ plen [c] false =
        some ⟨min plen c.length, c.take plen, none,
              ⟨some c, min plen c.length, er⟩, [], 1, false, [b]⟩ ∧
      0 < min plen c.length := by
  have hnl : ¬ i < b.length := Nat.not_lt.mpr hex
  refine ⟨by simp [Read, waitLoop, hnl], ?_⟩
  intro c hc hp
  have hcl : 0 < c.length := List.length_pos.mpr hc
  refine ⟨?_, by omega⟩
  rw [← list_take_min c plen]
  simp [Read, waitLoop, hnl, hcl, copyLoop]

/-- Witness for C1 at a concrete exhausted state. -/
theorem c1_witness :
    Read ⟨some [5, 6], 2, none⟩ 4 [] false =
      some ⟨0, [], some ErrNoData, ⟨some [5, 6], 2, none⟩, [], 0, true, []⟩ ∧
    Read ⟨some [5, 6], 2, none⟩ 4 [[9]] false =
      some ⟨1, [9], none, ⟨some [9], 1, none⟩, [], 1, false, [[5, 6]]⟩ := by
  have h := c1_timeout_state_unchanged [5, 6] 2 4 none (by decide)
  exact ⟨h.1, by simpa using (h.2 [9] (by decide) (by decide)).1⟩

/-- Claim C2: once the current buffer is the `nil` received from the closed
`next` channel and the sticky slot holds the terminal error, every `Read`
call returns `(0, that error)` and restores the state exactly, whatever the
destination length or channel activity; the slot is read and replayed, so
the value never changes across calls. -/
theorem c2_sticky_error (st : RState) (e : NBErr) (plen : Nat)
    (arrivals : List (List Nat)) (closed : Bool)
    (hb : st.buf = none) (he : st.err = some e) :
    Read st plen arrivals closed = some ⟨0, [], some e, st, arrivals, 0, false, []⟩ := by
  obtain ⟨buf, i, err⟩ := st
  dsimp at hb he
  subst hb; subst he
  simp [Read, waitLoop]

/-- Witness for C2 at a concrete post-error state. -/
theorem c2_witness :
    Read ⟨none, 0, some (.srcErr 7)⟩ 12 [[3]] true =
      some ⟨0, [], some (.srcErr 7), ⟨none, 0, some (.srcErr 7)⟩, [[3]], 0, false, []⟩ :=
  c2_sticky_error ⟨none, 0, some (.srcErr 7)⟩ (.srcErr 7) 12 [[3]] true rfl rfl

/-- Claim C10: a `Read` call made after the closed queue has been observed
(current buffer `nil`) skips the wait loop entirely: it performs no channel
receive, never takes the timer branch, and immediately reports the sticky
error with a zero count, leaving the state as it was. -/
theorem c10_error_immediate (st : RState) (plen : Nat)
    (arrivals : List (List Nat)) (closed : Bool) (r : ReadRes)
    (hb : st.buf = none) (h : Read st plen arrivals closed = some r) :
    r.waitRecvs = 0 ∧ r.timedOut = false ∧ r.n = 0 ∧ r.e = st.err ∧ r.st = st := by
  obtain ⟨buf, i, err⟩ := st
  dsimp at hb; subst hb
  cases err with
  | none => simp [Read, waitLoop] at h
  | some e =>
    simp [Read, waitLoop] at h
    subst h
    exact ⟨rfl, rfl, rfl, rfl, rfl⟩

/-- Witness for C10 at a concrete post-error state. -/
theorem c10_witness :
    (⟨0, [], some (.srcErr 3), ⟨none, 2, some (.srcErr 3)⟩, [[1]], 0, false, []⟩ :
        ReadRes).waitRecvs = 0 :=
  (c10_error_immediate ⟨none, 2, some (.srcErr 3)⟩ 5 [[1]] false
    ⟨0, [], some (.srcErr 3), ⟨none, 2, some (.srcErr 3)⟩, [[1]], 0, false, []⟩
    rfl (by decide)).1

/-- Helper: the wait loop is a no-op when the current buffer still has
unread bytes. -/
theorem waitLoop_enter (b : List Nat) (i : Nat) (arrivals : List (List Nat))
    (closed : Bool) (h : i < b.length) :
    waitLoop (some b) i arrivals closed = ⟨false, some b, i, arrivals, 0, []⟩ := by
  cases arrivals <;> simp [waitLoop, h]

/-- Helper: when the wait loop exits without timing out and with a non-`nil`
current buffer, the cursor points strictly inside that buffer. -/
theorem waitLoop_exit_lt (cur : Option (List Nat)) (i : Nat)
    (arrivals : List (List Nat)) (closed : Bool) (b : List Nat)
    (ht : (waitLoop cur i arrivals closed).timedOut = false)
    (hc : (waitLoop cur i arrivals closed).cur = some b) :
    (waitLoop cur i arrivals closed).i < b.length := by
  induction arrivals generalizing cur i with
  | nil =>
    cases cur with
    | none => simp [waitLoop] at hc
    | some b0 =>
      by_cases h : i < b0.length
      · simp only [waitLoop, if_pos h] at hc ⊢
        cases hc
        exact h
      · cases closed with
        | true => simp [waitLoop, h] at hc
        | false => simp [waitLoop, h] at ht
  | cons c rest ih =>
    cases cur with
    | none => simp [waitLoop] at hc
    | some b0 =>
      by_cases h : i < b0.length
      · simp only [waitLoop, if_pos h] at hc ⊢
        cases hc
        exact h
      · simp only [waitLoop, if_neg h] at ht hc ⊢
        exact ih (some c) 0 ht hc

/-- Helper: the copy loop copies at least `min prem (b.length - i)` further
bytes on top of the count accumulated so far. -/
theorem copyLoop_n_ge (arrivals : List (List Nat)) (b : List Nat)
    (i prem n : Nat) (out : List Nat) (closed : Bool) :
    n + min prem (b.length - i) ≤ (copyLoop b i prem n out arrivals closed).n := by
  induction arrivals generalizing b i prem n out with
  | nil =>
    simp only [copyLoop]
    split
    · simp
    · split <;> simp
  | cons c rest ih =>
    simp only [copyLoop]
    split
    · simp
    · exact le_trans (by omega)
        (ih c 0 (prem - min prem (b.length - i)) (n + min prem (b.length - i)) _)

/-- Claim C4 as stated: every `Read` call, for every destination slice,
returns either a positive count with a `nil` error or a zero count with a
non-`nil` error. -/
def C4Claim : Prop :=
  ∀ (st : RState) (plen : Nat) (arrivals : List (List Nat)) (closed : Bool)
    (r : ReadRes), Read st plen arrivals closed = some r →
    (0 < r.n ∧ r.e = none) ∨ (r.n = 0 ∧ r.e ≠ none)

/-- Counterexample to C4: with a zero-length destination and a byte already
buffered, `Read` returns count `0` with a `nil` error (the wait loop is
skipped since the buffer is not exhausted, and `copy` into an empty slice
gives `did = 0`, so `n >= len(p)` holds at `0 >= 0`). -/
theorem c4_counterexample : ¬C4Claim := by
  intro h
  simpa using
    h ⟨some [7], 0, none⟩ 0 [] false
      ⟨0, [], none, ⟨some [7], 0, none⟩, [], 0, false, []⟩ (by decide)

/-- Claim C4 amended: for every `Read` call whose destination slice has
positive length, the returned pair is exactly one of (positive count, `nil`
error) or (zero count, non-`nil` error). -/
theorem c4_dichotomy (st : RState) (plen : Nat) (arrivals : List (List Nat))
    (closed : Bool) (r : ReadRes) (hp : 0 < plen)
    (h : Read st plen arrivals closed = some r) :
    (0 < r.n ∧ r.e = none) ∨ (r.n = 0 ∧ r.e ≠ none) := by
  simp only [Read] at h
  by_cases ht : (waitLoop st.buf st.i arrivals closed).timedOut
  · rw [if_pos ht] at h
    cases h
    right
    exact ⟨rfl, by simp⟩
  · rw [if_neg ht] at h
    rcases hcur : (waitLoop st.buf st.i arrivals closed).cur with _ | b
    · rw [hcur] at h
      rcases herr : st.err with _ | e
      · rw [herr] at h
        simp at h
      · rw [herr] at h
        simp only [Option.some.injEq] at h
        subst h
        right
        exact ⟨rfl, by simp⟩
    · rw [hcur] at h
      simp only [Option.some.injEq] at h
      subst h
      left
      refine ⟨?_, rfl⟩
      have h1 := copyLoop_n_ge (waitLoop st.buf st.i arrivals closed).rem b
        (waitLoop st.buf st.i arrivals closed).i plen 0 [] closed
      have h2 := waitLoop_exit_lt st.buf st.i arrivals closed b
        (Bool.not_eq_true _ ▸ ht) hcur
      simp only [ReadRes.n]
      omega

/-- Witness for the amended C4 at a concrete positive-length destination. -/
theorem c4_witness :
    (0 < (⟨1, [7], none, ⟨some [7], 1, none⟩, [], 0, false, []⟩ : ReadRes).n ∧
      (⟨1, [7], none, ⟨some [7], 1, none⟩, [], 0, false, []⟩ : ReadRes).e = none) ∨
    ((⟨1, [7], none, ⟨some [7], 1, none⟩, [], 0, false, []⟩ : ReadRes).n = 0 ∧
      (⟨1, [7], none, ⟨some [7], 1, none⟩, [], 0, false, []⟩ : ReadRes).e ≠ none) :=
  c4_dichotomy ⟨some [7], 0, none⟩ 1 [] false
    ⟨1, [7], none, ⟨some [7], 1, none⟩, [], 0, false, []⟩ (by decide) (by decide)

/-- Helper: with the channel not closed, the wait loop can only end with a
`nil` current buffer if it started with one. -/
theorem waitLoop_nil_of_not_closed (cur : Option (List Nat)) (i : Nat)
    (arrivals : List (List Nat))
    (h : (waitLoop cur i arrivals false).cur = none) : cur = none := by
  induction arrivals generalizing cur i with
  | nil =>
    cases cur with
    | none => rfl
    | some b0 =>
      by_cases hb : i < b0.length <;> simp [waitLoop, hb] at h
  | cons c rest ih =>
    cases cur with
    | none => rfl
    | some b0 =>
      by_cases hb : i < b0.length
      · simp [waitLoop, hb] at h
      · simp only [waitLoop, if_neg hb] at h
        exact absurd (ih (some c) 0 h) (by simp)

/-- Helper: with the channel not closed, the copy loop never ends with a
`nil` current buffer. -/
theorem copyLoop_some_of_not_closed (arrivals : List (List Nat)) (b : List Nat)
    (i prem n : Nat) (out : List Nat) :
    (copyLoop b i prem n out arrivals false).cur ≠ none := by
  induction arrivals generalizing b i prem n out with
  | nil =>
    simp only [copyLoop]
    split
    · simp
    · simp
  | cons c rest ih =>
    simp only [copyLoop]
    split
    · simp
    · exact ih c 0 _ _ _

/-- Claim C9: the producer only publishes non-empty chunks; consequently,
given non-empty arrivals the wait loop performs at most one receive per
`Read` call, and (with the channel not closed) a call can only leave the
current buffer `nil` if it already was `nil`. -/
theorem c9_nonempty_publishes :
    (∀ (src : List (List Nat × Option NBErr)) (c : List Nat),
        c ∈ (producerRun src).1 → c ≠ []) ∧
    (∀ (cur : Option (List Nat)) (i : Nat) (arrivals : List (List Nat))
        (closed : Bool), (∀ c ∈ arrivals, c ≠ []) →
        (waitLoop cur i arrivals closed).recvs ≤ 1) ∧
    (∀ (st : RState) (plen : Nat) (arrivals : List (List Nat)) (r : ReadRes),
        Read st plen arrivals false = some r → r.st.buf = none →
        st.buf = none) := by
  refine ⟨?_, ?_, ?_⟩
  · intro src
    induction src with
    | nil => intro c hc; simp [producerRun] at hc
    | cons x rest ih =>
      obtain ⟨c0, e0⟩ := x
      intro c hc
      have hpubs : ∀ d, d ∈ (if c0.isEmpty then ([] : List (List Nat)) else [c0]) →
          d ≠ [] := by
        intro d hd
        by_cases h0 : c0.isEmpty
        · simp [h0] at hd
        · simp [h0] at hd
          subst hd
          intro hh
          subst hh
          simp at h0
      cases e0 with
      | some er => exact hpubs c (by simpa [producerRun] using hc)
      | none =>
        simp only [producerRun, List.mem_append] at hc
        rcases hc with hc | hc
        · exact hpubs c hc
        · exact ih c hc
  · intro cur i arrivals closed hne
    cases cur with
    | none => simp [waitLoop]
    | some b =>
      by_cases h : i < b.length
      · simp [waitLoop_enter b i arrivals closed h]
      · cases arrivals with
        | nil => cases closed <;> simp [waitLoop, h]
        | cons c rest =>
          have hcl : 0 < c.length := List.length_pos.mpr (hne c (by simp))
          simp [waitLoop, h, waitLoop_enter c 0 rest closed hcl]
  · intro st plen arrivals r h hb
    simp only [Read] at h
    by_cases ht : (waitLoop st.buf st.i arrivals false).timedOut
    · rw [if_pos ht] at h
      cases h
      exact waitLoop_nil_of_not_closed st.buf st.i arrivals hb
    · rw [if_neg ht] at h
      rcases hcur : (waitLoop st.buf st.i arrivals false).cur with _ | b
      · exact waitLoop_nil_of_not_closed st.buf st.i arrivals hcur
      · rw [hcur] at h
        simp only [Option.some.injEq] at h
        subst h
        exact absurd hb
          (copyLoop_some_of_not_closed (waitLoop st.buf st.i arrivals false).rem b
            (waitLoop st.buf st.i arrivals false).i plen 0 [])

/-- Witness for C9: a wait loop with one non-empty arrival performs exactly
one receive, within the bound. -/
theorem c9_witness : (waitLoop (some [1]) 5 [[2], [3]] true).recvs ≤ 1 :=
  c9_nonempty_publishes.2.1 (some [1]) 5 [[2], [3]] true (by decide)

/-- Helper: a `Read` call whose current buffer still has unread bytes skips
the wait loop and hands off to the copy loop. -/
theorem Read_data (b : List Nat) (i : Nat) (er : Option NBErr) (plen : Nat)
    (arrivals : List (List Nat)) (closed : Bool) (hi : i < b.length) :
    Read ⟨some b, i, er⟩ plen arrivals closed =
      some ⟨(copyLoop b i plen 0 [] arrivals closed).n,
            (copyLoop b i plen 0 [] arrivals closed).out, none,
            ⟨(copyLoop b i plen 0 [] arrivals closed).cur,
             (copyLoop b i plen 0 [] arrivals closed).i, er⟩,
            (copyLoop b i plen 0 [] arrivals closed).rem, 0, false,
            (copyLoop b i plen 0 [] arrivals closed).recycled⟩ := by
  simp [Read, waitLoop_enter b i arrivals closed hi]

/-- Helper: the copy loop's early return when the cumulative count reaches
the length of the (current, already shrunken) remaining destination. -/
theorem copyLoop_full (b : List Nat) (i prem n : Nat) (out : List Nat)
    (arrivals : List (List Nat)) (closed : Bool)
    (h : prem ≤ n + min prem (b.length - i)) :
    copyLoop b i prem n out arrivals closed =
      ⟨n + min prem (b.length - i), out ++ (b.drop i).take (min prem (b.length - i)),
       some b, i + min prem (b.length - i), arrivals, []⟩ := by
  cases arrivals <;> simp [copyLoop, h]

/-- Helper: the copy loop's step into the next immediately available buffer. -/
theorem copyLoop_cons (b : List Nat) (i prem n : Nat) (out : List Nat)
    (c : List Nat) (rest : List (List Nat)) (closed : Bool)
    (h : ¬ prem ≤ n + min prem (b.length - i)) :
    copyLoop b i prem n out (c :: rest) closed =
      ⟨(copyLoop c 0 (prem - min prem (b.length - i)) (n + min prem (b.length - i))
          (out ++ (b.drop i).take (min prem (b.length - i))) rest closed).n,
       (copyLoop c 0 (prem - min prem (b.length - i)) (n + min prem (b.length - i))
          (out ++ (b.drop i).take (min prem (b.length - i))) rest closed).out,
       (copyLoop c 0 (prem - min prem (b.length - i)) (n + min prem (b.length - i))
          (out ++ (b.drop i).take (min prem (b.length - i))) rest closed).cur,
       (copyLoop c 0 (prem - min prem (b.length - i)) (n + min prem (b.length - i))
          (out ++ (b.drop i).take (min prem (b.length - i))) rest closed).i,
       (copyLoop c 0 (prem - min prem (b.length - i)) (n + min prem (b.length - i))
          (out ++ (b.drop i).take (min prem (b.length - i))) rest closed).rem,
       b :: (copyLoop c 0 (prem - min prem (b.length - i)) (n + min prem (b.length - i))
          (out ++ (b.drop i).take (min prem (b.length - i))) rest closed).recycled⟩ := by
  simp [copyLoop, h]

/-- Helper: the copy loop's `default` branch — no arrival immediately
available and the channel not closed — returns what was copied so far. -/
theorem copyLoop_nil_open (b : List Nat) (i prem n : Nat) (out : List Nat)
    (h : ¬ prem ≤ n + min prem (b.length - i)) :
    copyLoop b i prem n out [] false =
      ⟨n + min prem (b.length - i), out ++ (b.drop i).take (min prem (b.length - i)),
       some b, i + min prem (b.length - i), [], []⟩ := by
  simp [copyLoop, h]

/-- Helper: the copy loop's receive of `nil` from the closed, drained channel
— returns what was copied so far with a `nil` error, recycling the current
buffer and leaving the `nil` buffer current. -/
theorem copyLoop_nil_closed (b : List Nat) (i prem n : Nat) (out : List Nat)
    (h : ¬ prem ≤ n + min prem (b.length - i)) :
    copyLoop b i prem n out [] true =
      ⟨n + min prem (b.length - i), out ++ (b.drop i).take (min prem (b.length - i)),
       none, 0, [], [b]⟩ := by
  simp [copyLoop, h]

/-- Helper: does the reader state hold no unread byte (`nil` current buffer,
or cursor at or past the end)? -/
def bufExhausted (st : RState) : Bool :=
  match st.buf with
  | none => true
  | some b => b.length ≤ st.i

/-- Claim C5 as stated: whenever a `Read` call has copied at least one byte,
the destination is not full, and the current buffer is exhausted, the call
performed a non-blocking poll and returned only because no further filled
buffer was immediately available — so no arrival can be left pending. -/
def C5Claim : Prop :=
  ∀ (st : RState) (plen : Nat) (arrivals : List (List Nat)) (closed : Bool)
    (r : ReadRes), Read st plen arrivals closed = some r →
    r.e = none → 0 < r.n → r.n < plen → bufExhausted r.st = true →
    r.rem = []

/-- Counterexample to C5: destination of length 10, current buffer of 5
bytes, arrivals `[6]` and `[7, 8]`.  After consuming the 5-byte buffer and
one byte of `[6]`, the cumulative count 6 reaches the length of the
remaining slice `p[5:]` (the check `n >= len(p)` compares the cumulative
count against the shrunken remainder), so `Read` returns 6 bytes without
polling, even though the buffer `[7, 8]` is immediately available, the
destination has room for 4 more bytes, and the current buffer is exhausted. -/
theorem c5_counterexample : ¬C5Claim := by
  intro h
  simpa using
    h ⟨some [1, 2, 3, 4, 5], 0, none⟩ 10 [[6], [7, 8]] false
      ⟨6, [1, 2, 3, 4, 5, 6], none, ⟨some [6], 1, none⟩, [[7, 8]], 0, false,
       [[1, 2, 3, 4, 5]]⟩
      (by decide) rfl (by decide) (by decide) (by decide)

/-- Claim C5 amended: whenever a `Read` call has copied at least one byte,
the current buffer is exhausted, and the cumulative count is still below the
length of the remaining (shrunken) destination slice — for the first buffer
of the call this is exactly "destination not full" — the call performs only
a non-blocking poll: with no arrival immediately available it returns the
bytes copied so far with a `nil` error (no timeout, no blocking); with a
non-empty arrival available it keeps copying into the same call; and the
data phase never produces a timeout whatever the channel state. -/
theorem c5_nonblocking_poll (b : List Nat) (i plen : Nat) (er : Option NBErr)
    (hi : i < b.length) (hsmall : b.length - i < plen) :
    (Read ⟨some b, i, er⟩ plen [] false =
        some ⟨b.length - i, b.drop i, none, ⟨some b, b.length, er⟩, [], 0, false,
              []⟩) ∧
    (∀ (c : List Nat) (rest : List (List Nat)) (closed : Bool) (r : ReadRes),
        c ≠ [] → Read ⟨some b, i, er⟩ plen (c :: rest) closed = some r →
        b.length - i < r.n ∧ r.e = none) ∧
    (∀ (arrivals : List (List Nat)) (closed : Bool), ∃ r : ReadRes,
        Read ⟨some b, i, er⟩ plen arrivals closed = some r ∧
        r.e = none ∧ r.timedOut = false) := by
  have hmin : min plen (b.length - i) = b.length - i := Nat.min_eq_right (by omega)
  have hno : ¬ plen ≤ 0 + min plen (b.length - i) := by omega
  refine ⟨?_, ?_, ?_⟩
  · rw [Read_data b i er plen [] false hi, copyLoop_nil_open b i plen 0 [] hno]
    have htake : (b.drop i).take (min plen (b.length - i)) = b.drop i := by
      rw [hmin]
      exact List.take_of_length_le (by simp)
    simp [hmin, htake]
    omega
  · intro c rest closed r hc hread
    have hcl : 0 < c.length := List.length_pos.mpr hc
    rw [Read_data b i er plen (c :: rest) closed hi] at hread
    simp only [Option.some.injEq] at hread
    subst hread
    refine ⟨?_, rfl⟩
    simp only [ReadRes.n]
    rw [copyLoop_cons b i plen 0 [] c rest closed hno]
    simp only [CopyRes.n]
    refine lt_of_lt_of_le ?_
      (copyLoop_n_ge rest c 0 (plen - min plen (b.length - i))
        (0 + min plen (b.length - i))
        ([] ++ (b.drop i).take (min plen (b.length - i))) closed)
    omega
  · intro arrivals closed
    exact ⟨_, Read_data b i er plen arrivals closed hi, rfl, rfl⟩

/-- Witness for the amended C5: a 2-byte buffer into a 9-byte destination
with no pending arrival returns the 2 bytes immediately with no error. -/
theorem c5_witness :
    Read ⟨some [3, 4], 0, none⟩ 9 [] false =
      some ⟨2, [3, 4], none, ⟨some [3, 4], 2, none⟩, [], 0, false, []⟩ :=
  (c5_nonblocking_poll [3, 4] 0 9 none (by decide) (by decide)).1

/-- Helper: the wait loop, on an exhausted buffer, adopts the next non-empty
arrival (recycling the old buffer and resetting the cursor) and exits. -/
theorem waitLoop_adopt (b c : List Nat) (rest : List (List Nat)) (closed : Bool)
    (i : Nat) (hb : ¬ i < b.length) (hc : 0 < c.length) :
    waitLoop (some b) i (c :: rest) closed = ⟨false, some c, 0, rest, 1, [b]⟩ := by
  simp [waitLoop, hb, waitLoop_enter c 0 rest closed hc]

/-- Helper: an error-free prefix of source results makes the producer publish
exactly its non-empty chunks, followed by whatever the final erroring call
publishes — the chunk of a call that returns both data and an error is
published, and the error is recorded right after. -/
theorem producerRun_append (init : List (List Nat × Option NBErr)) (c : List Nat)
    (e : NBErr) (hfree : ∀ x ∈ init, x.2 = none) :
    producerRun (init ++ [(c, some e)]) =
      ((init.map Prod.fst).filter (fun d => !d.isEmpty) ++
        (if c.isEmpty then [] else [c]), some e) := by
  induction init with
  | nil => simp [producerRun]
  | cons x rest ih =>
    obtain ⟨c0, e0⟩ := x
    have h0 : e0 = none := hfree (c0, e0) (by simp)
    subst h0
    simp only [List.cons_append, producerRun, List.append_eq]
    rw [ih (fun y hy => hfree y (by simp [hy]))]
    by_cases hph : c0.isEmpty <;> simp [hph]

/-- Helper: one-step unfolding of `drive` at positive fuel. -/
theorem drive_succ (fuel : Nat) (st : RState) (plen : Nat)
    (arrivals : List (List Nat)) :
    drive (fuel + 1) st plen arrivals =
      match Read st plen arrivals true with
      | none => none
      | some r =>
        match r.e with
        | some e => some ([], e)
        | none =>
          match drive fuel r.st plen r.rem with
          | none => none
          | some pr => some (r.out ++ pr.1, pr.2) := rfl

/-- Helper: with the channel closed and all arrivals non-empty, repeated
one-byte `Read` calls deliver every buffered byte in order and only then
surface the stored error. -/
theorem drive_delivers (L : Nat) :
    ∀ (b : List Nat) (i : Nat) (arrivals : List (List Nat)) (e : NBErr),
      (∀ x ∈ arrivals, x ≠ []) →
      (b.drop i ++ arrivals.flatten).length = L →
      drive (L + 1) ⟨some b, i, some e⟩ 1 arrivals =
        some (b.drop i ++ arrivals.flatten, e) := by
  induction L with
  | zero =>
    intro b i arrivals e hne hlen
    simp only [List.length_append, Nat.add_eq_zero, List.length_eq_zero] at hlen
    obtain ⟨hdrop, hflat⟩ := hlen
    have harr : arrivals = [] := by
      cases arrivals with
      | nil => rfl
      | cons a rest =>
        have ha : a ≠ [] := hne a (by simp)
        rw [List.flatten_cons] at hflat
        exact absurd (List.append_eq_nil.mp hflat).1 ha
    subst harr
    have hb : ¬ i < b.length := Nat.not_lt.mpr (List.drop_eq_nil_iff.mp hdrop)
    simp [drive, Read, waitLoop, hb, hdrop]
  | succ L ih =>
    intro b i arrivals e hne hlen
    by_cases hi : i < b.length
    · have hdrop := List.drop_eq_getElem_cons hi
      have hfull : (1 : Nat) ≤ 0 + min 1 (b.length - i) := by omega
      have hmin : min 1 (b.length - i) = 1 := by omega
      have hlen2 : (b.drop (i + 1) ++ arrivals.flatten).length = L := by
        simp only [List.length_append, List.length_drop] at hlen ⊢
        omega
      have hrec := ih b (i + 1) arrivals e hne hlen2
      rw [drive_succ, Read_data b i (some e) 1 arrivals true hi,
        copyLoop_full b i 1 0 [] arrivals true hfull]
      have hdd : (List.drop i b).drop 1 = List.drop (i + 1) b := by
        rw [List.drop_drop, Nat.add_comm]
      simp only [hmin]
      simp only [hrec]
      simp only [List.nil_append]
      rw [← hdd, ← List.append_assoc, List.take_append_drop]
    · have hdrop : b.drop i = [] := List.drop_eq_nil_of_le (by omega)
      cases arrivals with
      | nil =>
        exfalso
        simp [hdrop] at hlen
      | cons c rest =>
        have hc : 0 < c.length := List.length_pos.mpr (hne c (by simp))
        have hfull : (1 : Nat) ≤ 0 + min 1 (c.length - 0) := by omega
        have hmin : min 1 (c.length - 0) = 1 := by omega
        have hlen2 : (c.drop 1 ++ rest.flatten).length = L := by
          simp only [hdrop, List.nil_append, List.flatten_cons, List.length_append,
            List.length_drop] at hlen ⊢
          omega
        have hrec := ih c 1 rest e (fun x hx => hne x (by simp [hx])) hlen2
        have hread : Read ⟨some b, i, some e⟩ 1 (c :: rest) true =
            some ⟨1, c.take 1, none, ⟨some c, 1, some e⟩, rest, 1, false, [b]⟩ := by
          simp only [Read, waitLoop_adopt b c rest true i hi hc]
          simp only [copyLoop_full c 0 1 0 [] rest true hfull, hmin]
          simp
        rw [drive_succ, hread]
        simp only [hrec]
        rw [hdrop, ← List.append_assoc, List.take_append_drop, List.flatten_cons]
        simp

/-- Claim C3: when a single source call returns both bytes and an error, the
producer publishes the bytes and still records the error right after (first
conjunct); the consumer then delivers every published byte, in order, across
`Read` calls before any call surfaces the error (second conjunct); and a
`Read` call that has copied bytes and then receives `nil` from the closed
queue returns those bytes with a `nil` error, deferring the error to the
next call (third conjunct). -/
theorem c3_data_before_error :
    ∀ (init : List (List Nat × Option NBErr)) (c : List Nat) (e : NBErr),
      (∀ x ∈ init, x.2 = none) → c ≠ [] →
      producerRun (init ++ [(c, some e)]) =
        ((init.map Prod.fst).filter (fun d => !d.isEmpty) ++ [c], some e) ∧
      (∀ P : List (List Nat), P = (producerRun (init ++ [(c, some e)])).1 →
        drive (P.flatten.length + 1) ⟨some [], 0, some e⟩ 1 P = some (P.flatten, e)) ∧
      (∀ (b : List Nat) (i plen : Nat), i < b.length → b.length - i < plen →
        Read ⟨some b, i, some e⟩ plen [] true =
          some ⟨b.length - i, b.drop i, none, ⟨none, 0, some e⟩, [], 0, false,
                [b]⟩ ∧
        Read ⟨none, 0, some e⟩ plen [] true =
          some ⟨0, [], some e, ⟨none, 0, some e⟩, [], 0, false, []⟩) := by
  intro init c e hfree hc
  have hemp : c.isEmpty = false := by
    cases c
    · exact absurd rfl hc
    · rfl
  have hprod := producerRun_append init c e hfree
  rw [hemp] at hprod
  simp only [Bool.false_eq_true, if_false] at hprod
  refine ⟨hprod, ?_, ?_⟩
  · intro P hP
    have hPne : ∀ x ∈ P, x ≠ [] := by
      intro x hx
      rw [hP, hprod] at hx
      simp only [List.mem_append, List.mem_filter, List.mem_singleton] at hx
      rcases hx with ⟨_, hx⟩ | hx
      · simpa using hx
      · subst hx
        exact hc
    have := drive_delivers P.flatten.length [] 0 P e hPne (by simp)
    simpa using this
  · intro b i plen hi hsmall
    have hno : ¬ plen ≤ 0 + min plen (b.length - i) := by omega
    have hmin : min plen (b.length - i) = b.length - i := Nat.min_eq_right (by omega)
    constructor
    · rw [Read_data b i (some e) plen [] true hi,
        copyLoop_nil_closed b i plen 0 [] hno]
      have htake : (b.drop i).take (min plen (b.length - i)) = b.drop i := by
        rw [hmin]
        exact List.take_of_length_le (by simp)
      simp [hmin, htake]
    · simp [Read, waitLoop]

/-- Witness for C3: source results `([5], nil)` then `([7, 8], err 2)`;
the producer publishes `[5]` and `[7, 8]` and records the error, and three
one-byte reads deliver `5, 7, 8` before a call surfaces the error. -/
theorem c3_witness :
    drive 4 ⟨some [], 0, some (.srcErr 2)⟩ 1 [[5], [7, 8]] =
      some ([5, 7, 8], .srcErr 2) := by
  simpa using
    (c3_data_before_error [([5], none)] [7, 8] (.srcErr 2) (by simp)
      (by decide)).2.1 [[5], [7, 8]] (by decide)

/-- Helper: the drain loop recycles every pending buffer in order and then
observes the closed channel. -/
theorem closeDrain_eq (p : List (List Nat)) :
    closeDrain p = p.map CloseEv.recycle ++ [.sawClosed] := by
  induction p with
  | nil => rfl
  | cons c rest ih => simp [closeDrain, ih]

/-- Claim C7: `Close` closes the underlying source first (the first event of
the call), and its return value is exactly the error value produced by the
source's own `Close` — `nil` when that was `nil`, never a synthesized error;
the drain of pending buffers happens after and does not affect the result. -/
theorem c7_close_passthrough (e : Option NBErr) (pending : List (List Nat)) :
    closeFn e pending =
      (e, .srcClose :: (pending.map CloseEv.recycle ++ [.sawClosed])) := by
  simp [closeFn, closeDrain_eq]
